import Mathlib

/-!
Verification of the interval logic of `schedule-mcp`.

The embedding models time instants as integers (minutes on a linear timeline
for the free-slot finder, seconds for the conflict detector, matching the
units each piece of source code computes with).  Provider events carry the
outcome of date-string parsing as an `Option`: `none` embeds a `ValueError`
raised by `datetime.fromisoformat`, `some t` the parsed, timezone-normalized
instant.
-/

/-- A free slot as produced by `find_free_slots` (gcal.py): the Python dict
`{"start": ..., "end": ...}`.  `stop` embeds the `end` key (`end` is a Lean
keyword). -/
structure FreeSlot where
  start : Int
  stop : Int
deriving DecidableEq, Repr

/-- A raw calendar event as returned by the Calendar Provider.  `pstart` and
`pend` model the result of `datetime.fromisoformat(...).astimezone(tz)` on the
event's start/end strings: `none` embeds a parse failure (`ValueError`),
`some t` the parsed instant. -/
structure RawEvent where
  pstart : Option Int
  pend : Option Int
  summary : String
  id : String
deriving DecidableEq, Repr

/-- gcal.py, `find_free_slots` lines 206-215: build the list of busy windows,
skipping any event whose start or end fails to parse
(`except ValueError: continue`).  Both endpoints are parsed inside one `try`,
so a failure on either drops the whole event. -/
def parseBusy (events : List RawEvent) : List (Int × Int) :=
  events.filterMap fun ev => ev.pstart.bind fun s => ev.pend.map fun e => (s, e)

/-- gcal.py line 217: `busy.sort()` — Python sorts `(start, end)` tuples
lexicographically. -/
@[reducible] def busyLE (a b : Int × Int) : Prop :=
  a.1 < b.1 ∨ (a.1 = b.1 ∧ a.2 ≤ b.2)

instance : IsTotal (Int × Int) busyLE :=
  ⟨by
    intro a b
    rcases lt_trichotomy a.1 b.1 with h | h | h
    · exact Or.inl (Or.inl h)
    · rcases le_total a.2 b.2 with h2 | h2
      · exact Or.inl (Or.inr ⟨h, h2⟩)
      · exact Or.inr (Or.inr ⟨h.symm, h2⟩)
    · exact Or.inr (Or.inl h)⟩

instance : IsTrans (Int × Int) busyLE :=
  ⟨by
    intro a b c hab hbc
    rcases hab with h | ⟨h1, h2⟩ <;> rcases hbc with h' | ⟨h1', h2'⟩
    · exact Or.inl (h.trans h')
    · exact Or.inl (h1' ▸ h)
    · exact Or.inl (h1 ▸ h')
    · exact Or.inr ⟨h1.trans h1', h2.trans h2'⟩⟩

/-- gcal.py lines 229-230: `if busy_end > cursor: cursor = busy_end` — the
cursor only ever advances forward. -/
def advance (c e : Int) : Int := if c < e then e else c

/-- gcal.py lines 219-236: the cursor walk over the sorted busy windows.  For
each window, emit a slot `[cursor, cursor + duration)` when it fits before the
window's start, then advance the cursor; after the last window, emit one final
slot when it fits before `day_end`. -/
def slotScan (d dayEnd : Int) : Int → List (Int × Int) → List FreeSlot
  | c, [] => if c + d ≤ dayEnd then [⟨c, c + d⟩] else []
  | c, (bs, be) :: rest =>
      (if c + d ≤ bs then [⟨c, c + d⟩] else []) ++ slotScan d dayEnd (advance c be) rest

/-- gcal.py lines 175-238, `find_free_slots(date, duration_minutes,
earliest_hour, latest_hour)`.  `date` is the instant of midnight of the target
date; `day_start`/`day_end` embed
`datetime.fromisoformat(date).replace(hour=h, minute=0, second=0)`. -/
def find_free_slots (date duration_minutes earliest_hour latest_hour : Int)
    (events : List RawEvent) : List FreeSlot :=
  let dayStart := date + 60 * earliest_hour
  let dayEnd := date + 60 * latest_hour
  slotScan duration_minutes dayEnd dayStart (List.insertionSort busyLE (parseBusy events))

lemma le_advance_left (c e : Int) : c ≤ advance c e := by
  unfold advance; split <;> omega

lemma le_advance_right (c e : Int) : e ≤ advance c e := by
  unfold advance; split <;> omega

lemma slotScan_cursor_le (d dayEnd : Int) :
    ∀ (busy : List (Int × Int)) (c : Int) (sl : FreeSlot),
      sl ∈ slotScan d dayEnd c busy → c ≤ sl.start := by
  intro busy
  induction busy with
  | nil =>
    intro c sl h
    simp only [slotScan] at h
    split at h
    · simp only [List.mem_singleton] at h
      subst h; exact le_refl _
    · simp at h
  | cons w rest ih =>
    intro c sl h
    obtain ⟨bs, be⟩ := w
    simp only [slotScan, List.mem_append] at h
    rcases h with h | h
    · split at h
      · simp only [List.mem_singleton] at h
        subst h; exact le_refl _
      · simp at h
    · exact le_trans (le_advance_left c be) (ih (advance c be) sl h)

lemma slotScan_length (d dayEnd : Int) :
    ∀ (busy : List (Int × Int)) (c : Int) (sl : FreeSlot),
      sl ∈ slotScan d dayEnd c busy → sl.stop = sl.start + d := by
  intro busy
  induction busy with
  | nil =>
    intro c sl h
    simp only [slotScan] at h
    split at h
    · simp only [List.mem_singleton] at h
      subst h; rfl
    · simp at h
  | cons w rest ih =>
    intro c sl h
    obtain ⟨bs, be⟩ := w
    simp only [slotScan, List.mem_append] at h
    rcases h with h | h
    · split at h
      · simp only [List.mem_singleton] at h
        subst h; rfl
      · simp at h
    · exact ih (advance c be) sl h

lemma slotScan_pairwise (d dayEnd : Int) :
    ∀ (busy : List (Int × Int)) (c : Int),
      (∀ w ∈ busy, w.1 ≤ w.2) →
      (slotScan d dayEnd c busy).Pairwise (fun x y => x.stop ≤ y.start) := by
  intro busy
  induction busy with
  | nil =>
    intro c _
    simp only [slotScan]
    split
    · exact List.pairwise_singleton _ _
    · exact List.Pairwise.nil
  | cons w rest ih =>
    intro c hwf
    obtain ⟨bs, be⟩ := w
    have hhead : bs ≤ be := hwf (bs, be) (List.mem_cons_self _ _)
    have hrest : ∀ w ∈ rest, w.1 ≤ w.2 := fun w hw => hwf w (List.mem_cons_of_mem _ hw)
    simp only [slotScan]
    split
    · rename_i hc
      rw [List.singleton_append, List.pairwise_cons]
      refine ⟨?_, ih (advance c be) hrest⟩
      intro sl hsl
      have h1 : advance c be ≤ sl.start := slotScan_cursor_le d dayEnd rest (advance c be) sl hsl
      have h2 : be ≤ advance c be := le_advance_right c be
      show c + d ≤ sl.start
      omega
    · rw [List.nil_append]
      exact ih (advance c be) hrest

lemma slotScan_start_mono (d dayEnd : Int) :
    ∀ (busy : List (Int × Int)) (c : Int),
      (slotScan d dayEnd c busy).Pairwise (fun x y => x.start ≤ y.start) := by
  intro busy
  induction busy with
  | nil =>
    intro c
    simp only [slotScan]
    split
    · exact List.pairwise_singleton _ _
    · exact List.Pairwise.nil
  | cons w rest ih =>
    intro c
    obtain ⟨bs, be⟩ := w
    simp only [slotScan]
    split
    · rw [List.singleton_append, List.pairwise_cons]
      refine ⟨?_, ih (advance c be)⟩
      intro sl hsl
      have h1 : advance c be ≤ sl.start := slotScan_cursor_le d dayEnd rest (advance c be) sl hsl
      have h2 : c ≤ advance c be := le_advance_left c be
      show c ≤ sl.start
      omega
    · rw [List.nil_append]
      exact ih (advance c be)

lemma slotScan_disjoint (d dayEnd : Int) :
    ∀ (busy : List (Int × Int)) (c : Int),
      busy.Pairwise (fun w w' => w.1 ≤ w'.1) →
      ∀ sl ∈ slotScan d dayEnd c busy, ∀ w ∈ busy, sl.stop ≤ w.1 ∨ w.2 ≤ sl.start := by
  intro busy
  induction busy with
  | nil =>
    intro c _ sl _ w hw
    simp at hw
  | cons w0 rest ih =>
    intro c hsorted sl hsl w hw
    obtain ⟨bs, be⟩ := w0
    rw [List.pairwise_cons] at hsorted
    simp only [slotScan, List.mem_append] at hsl
    rcases hsl with h | h
    · -- the slot emitted before the head window
      by_cases hc : c + d ≤ bs
      · simp only [if_pos hc, List.mem_singleton] at h
        subst h
        rcases List.mem_cons.mp hw with hw | hw
        · left; rw [hw] at *; exact hc
        · left
          have : bs ≤ w.1 := hsorted.1 w hw
          show c + d ≤ w.1
          omega
      · simp only [if_neg hc] at h
        simp at h
    · -- a slot produced after advancing past the head window
      rcases List.mem_cons.mp hw with hw | hw
      · right
        have h1 : advance c be ≤ sl.start := slotScan_cursor_le d dayEnd rest (advance c be) sl h
        have h2 : be ≤ advance c be := le_advance_right c be
        rw [hw]
        show be ≤ sl.start
        omega
      · exact ih (advance c be) hsorted.2 sl h w hw

/-- C1: for every list of busy windows (each a genuine interval,
`start ≤ end`; unsorted and mutually overlapping lists included) and every
requested duration, the slots returned by `find_free_slots` are each exactly
`duration_minutes` long, pairwise non-overlapping, in chronological order of
start time, and disjoint from every parsed busy window. -/
theorem find_free_slots_sound (date d eh lh : Int) (events : List RawEvent)
    (hwf : ∀ w ∈ parseBusy events, w.1 ≤ w.2) :
    (∀ sl ∈ find_free_slots date d eh lh events, sl.stop = sl.start + d) ∧
    (find_free_slots date d eh lh events).Pairwise (fun x y => x.stop ≤ y.start) ∧
    (find_free_slots date d eh lh events).Pairwise (fun x y => x.start ≤ y.start) ∧
    (∀ sl ∈ find_free_slots date d eh lh events, ∀ w ∈ parseBusy events,
      sl.stop ≤ w.1 ∨ w.2 ≤ sl.start) := by
  unfold find_free_slots
  set sorted := List.insertionSort busyLE (parseBusy events) with hs
  have hmem : ∀ w : Int × Int, w ∈ sorted ↔ w ∈ parseBusy events := by
    intro w; rw [hs]; exact List.mem_insertionSort busyLE
  have hwf' : ∀ w ∈ sorted, w.1 ≤ w.2 := fun w hw => hwf w ((hmem w).mp hw)
  have hsorted : sorted.Pairwise (fun w w' : Int × Int => w.1 ≤ w'.1) := by
    have h := List.sorted_insertionSort busyLE (parseBusy events)
    rw [← hs] at h
    exact List.Pairwise.imp (fun {a b} hab => by rcases hab with h' | ⟨h', _⟩ <;> omega) h
  refine ⟨?_, ?_, ?_, ?_⟩
  · intro sl hsl
    exact slotScan_length d _ sorted _ sl hsl
  · exact slotScan_pairwise d _ sorted _ hwf'
  · exact slotScan_start_mono d _ sorted _
  · intro sl hsl w hw
    exact slotScan_disjoint d _ sorted _ hsorted sl hsl w ((hmem w).mpr hw)

/-- Witness for C1 at a concrete input: two overlapping, unsorted busy windows
plus one malformed event; the returned slots are disjoint from every parsed
busy window. -/
theorem find_free_slots_sound_witness :
    (∀ w ∈ parseBusy [⟨some 570, some 630, "sync", "e2"⟩,
        ⟨some 540, some 600, "standup", "e1"⟩, ⟨none, some 700, "bad", "e3"⟩], w.1 ≤ w.2) ∧
    (∀ sl ∈ find_free_slots 0 60 8 20 [⟨some 570, some 630, "sync", "e2"⟩,
        ⟨some 540, some 600, "standup", "e1"⟩, ⟨none, some 700, "bad", "e3"⟩],
      ∀ w ∈ parseBusy [⟨some 570, some 630, "sync", "e2"⟩,
        ⟨some 540, some 600, "standup", "e1"⟩, ⟨none, some 700, "bad", "e3"⟩],
        sl.stop ≤ w.1 ∨ w.2 ≤ sl.start) :=
  ⟨by decide,
   (find_free_slots_sound 0 60 8 20 [⟨some 570, some 630, "sync", "e2"⟩,
      ⟨some 540, some 600, "standup", "e1"⟩, ⟨none, some 700, "bad", "e3"⟩]
      (by decide)).2.2.2⟩

/-- C4 (failing input): with working hours 8:00-9:00 (`latest_hour = 9`), a
busy window 10:00-11:00 and a 120-minute request, the code emits the slot
08:00-10:00, whose end (minute 600) lies strictly beyond
`day_end = 0 + 60 * 9 = 540`.  The in-loop emission checks the slot only
against the busy window's start, never against `day_end`. -/
theorem find_free_slots_slot_beyond_day_end :
    find_free_slots 0 120 8 9 [⟨some 600, some 660, "meeting", "e1"⟩] = [⟨480, 600⟩] ∧
    (0 + 60 * 9 : Int) < 600 := by decide

/-- C5 (failing input): with `latest_hour = 9 ≤ 20 = earliest_hour` and a busy
window 21:00-22:00 on the target date, the code returns the slot 20:00-20:30
instead of an empty list. -/
theorem find_free_slots_inverted_hours_nonempty :
    (9 : Int) ≤ 20 ∧
    find_free_slots 0 30 20 9 [⟨some 1260, some 1320, "meeting", "e1"⟩] = [⟨1200, 1230⟩] := by
  decide

/-- A parsed event tuple `(start, end, summary, id)` — schedule.py line 251:
`parsed.append((s, e, ev.get("summary", "(no title)"), ev.get("id")))`.
Instants are in seconds here, since the detector compares
`.total_seconds()` against thresholds in seconds. -/
structure PEvent where
  s : Int
  e : Int
  title : String
  id : String
deriving DecidableEq, Repr

/-- schedule.py lines 244-253: parse events into tuples, skipping any event
whose start or end fails to parse (`except ValueError: continue`). -/
def parseConflictEvents (events : List RawEvent) : List PEvent :=
  events.filterMap fun ev =>
    ev.pstart.bind fun s => ev.pend.map fun e => ⟨s, e, ev.summary, ev.id⟩

/-- schedule.py line 255: `parsed.sort()` — Python sorts the 4-tuples
lexicographically. -/
@[reducible] def peLE (a b : PEvent) : Prop :=
  a.s < b.s ∨ (a.s = b.s ∧ (a.e < b.e ∨ (a.e = b.e ∧
    (a.title < b.title ∨ (a.title = b.title ∧ a.id ≤ b.id)))))

/-- Python `round(x, 1)` rounds half to even.  `roundHalfEven q` is the
nearest integer to `q`, with ties going to the even integer. -/
def roundHalfEven (q : ℚ) : ℤ :=
  let f := ⌊q⌋
  if q - f < 1/2 then f
  else if 1/2 < q - f then f + 1
  else if f % 2 = 0 then f else f + 1

/-- `round((s2 - e1).total_seconds() / 60, 1)`: the gap in minutes rounded to
one decimal place, stored as an integer number of tenths of a minute. -/
def gapDeciMinutes (secs : Int) : Int := roundHalfEven ((secs : ℚ) * 10 / 60)

/-- `round((e1 - s1).total_seconds() / 3600, 1)`: the duration in hours
rounded to one decimal place, stored as tenths of an hour. -/
def durationDeciHours (secs : Int) : Int := roundHalfEven ((secs : ℚ) * 10 / 3600)

/-- One entry of the `overlaps` list (schedule.py lines 278-283). -/
structure OverlapReport where
  event_1 : String
  event_2 : String
  overlap_start : Int
  overlap_end : Int
deriving DecidableEq, Repr

/-- One entry of the `tight_transitions` list (schedule.py lines 286-292). -/
structure TightReport where
  event_1 : String
  event_1_end : Int
  event_2 : String
  event_2_start : Int
  gap_deciminutes : Int
deriving DecidableEq, Repr

/-- One entry of the `long_events` list (schedule.py lines 264-269). -/
structure LongReport where
  event : String
  start : Int
  stop : Int
  duration_decihours : Int
deriving DecidableEq, Repr

/-- The JSON payload assembled at schedule.py lines 294-303. -/
structure ConflictsOutput where
  overlaps : List OverlapReport
  tight_transitions : List TightReport
  long_events : List LongReport
  all_clear : Bool
deriving DecidableEq, Repr

/-- schedule.py lines 277-283: `if s2 < e1` report an overlap with
`overlap_start = s2` and `overlap_end = min(e1, e2)`. -/
def overlapCheck (a b : PEvent) : List OverlapReport :=
  if b.s < a.e then [⟨a.title, b.title, b.s, min a.e b.e⟩] else []

/-- schedule.py lines 284-292: `elif (s2 - e1).total_seconds() < 600` report a
tight transition with the gap in minutes to one decimal place. -/
def tightCheck (a b : PEvent) : List TightReport :=
  if b.s < a.e then []
  else if b.s - a.e < 600 then [⟨a.title, a.e, b.title, b.s, gapDeciMinutes (b.s - a.e)⟩]
  else []

/-- schedule.py lines 262-269: `if (e1 - s1).total_seconds() > 4 * 3600`
report a long event. -/
def longCheck (a : PEvent) : List LongReport :=
  if 4 * 3600 < a.e - a.s then [⟨a.title, a.s, a.e, durationDeciHours (a.e - a.s)⟩] else []

/-- schedule.py lines 261-292: the single forward pass.  Each event gets the
long-event check; each event other than the last is compared with its
immediate successor only. -/
def conflictScan : List PEvent → List OverlapReport × List TightReport × List LongReport
  | [] => ([], [], [])
  | [a] => ([], [], longCheck a)
  | a :: b :: rest =>
      let r := conflictScan (b :: rest)
      (overlapCheck a b ++ r.1, tightCheck a b ++ r.2.1, longCheck a ++ r.2.2)

/-- The sorted, parsed event list used by the conflict detector. -/
def sortedEvents (events : List RawEvent) : List PEvent :=
  List.insertionSort peLE (parseConflictEvents events)

/-- schedule.py lines 239-303, `schedule_find_conflicts`: parse, sort, scan,
and report `all_clear = not overlaps and not tight_transitions`. -/
def schedule_find_conflicts (events : List RawEvent) : ConflictsOutput :=
  let r := conflictScan (sortedEvents events)
  ⟨r.1, r.2.1, r.2.2, r.1.isEmpty && r.2.1.isEmpty⟩

/-- The overlap report an adjacent pair would produce, as an `Option`. -/
def overlapOf (p : PEvent × PEvent) : Option OverlapReport :=
  if p.2.s < p.1.e then some ⟨p.1.title, p.2.title, p.2.s, min p.1.e p.2.e⟩ else none

/-- The tight-transition report an adjacent pair would produce. -/
def tightOf (p : PEvent × PEvent) : Option TightReport :=
  if p.2.s < p.1.e then none
  else if p.2.s - p.1.e < 600 then
    some ⟨p.1.title, p.1.e, p.2.title, p.2.s, gapDeciMinutes (p.2.s - p.1.e)⟩
  else none

/-- The long-event report a single event would produce. -/
def longOf (a : PEvent) : Option LongReport :=
  if 4 * 3600 < a.e - a.s then some ⟨a.title, a.s, a.e, durationDeciHours (a.e - a.s)⟩ else none

lemma overlapCheck_eq_toList (a b : PEvent) :
    overlapCheck a b = (overlapOf (a, b)).toList := by
  unfold overlapCheck overlapOf
  split <;> rfl

lemma tightCheck_eq_toList (a b : PEvent) :
    tightCheck a b = (tightOf (a, b)).toList := by
  unfold tightCheck tightOf
  split
  · rfl
  · split <;> rfl

lemma longCheck_eq_toList (a : PEvent) :
    longCheck a = (longOf a).toList := by
  unfold longCheck longOf
  split <;> rfl

lemma conflictScan_overlaps_eq (l : List PEvent) :
    (conflictScan l).1 = (l.zip l.tail).filterMap overlapOf := by
  induction l with
  | nil => rfl
  | cons a t ih =>
    cases t with
    | nil => rfl
    | cons b rest =>
      simp only [conflictScan, List.tail_cons, List.zip_cons_cons, List.filterMap_cons]
      rw [overlapCheck_eq_toList]
      have ht : (conflictScan (b :: rest)).1 = ((b :: rest).zip rest).filterMap overlapOf := by
        simpa using ih
      cases hov : overlapOf (a, b) <;> simp [hov, ht]

lemma conflictScan_tights_eq (l : List PEvent) :
    (conflictScan l).2.1 = (l.zip l.tail).filterMap tightOf := by
  induction l with
  | nil => rfl
  | cons a t ih =>
    cases t with
    | nil => rfl
    | cons b rest =>
      simp only [conflictScan, List.tail_cons, List.zip_cons_cons, List.filterMap_cons]
      rw [tightCheck_eq_toList]
      have ht : (conflictScan (b :: rest)).2.1 = ((b :: rest).zip rest).filterMap tightOf := by
        simpa using ih
      cases htt : tightOf (a, b) <;> simp [htt, ht]

lemma conflictScan_longs_eq (l : List PEvent) :
    (conflictScan l).2.2 = l.filterMap longOf := by
  induction l with
  | nil => rfl
  | cons a t ih =>
    cases t with
    | nil =>
      simp only [conflictScan, List.filterMap_cons, List.filterMap_nil]
      rw [longCheck_eq_toList]
      cases longOf a <;> rfl
    | cons b rest =>
      simp only [conflictScan, List.filterMap_cons]
      rw [longCheck_eq_toList]
      cases longOf a <;> simp [ih, List.filterMap_cons]

/-- C2: the conflict detector is an adjacent-pairs scan over the sorted event
list.  An overlap is reported exactly when `next.start < current.end`, with
interval `(next.start, min(current.end, next.end))`; otherwise a tight
transition is reported exactly when the gap is under 600 seconds, carrying the
gap in minutes rounded to one decimal place.  Overlap and tight-transition
reports arise only from immediately adjacent pairs of the sorted order, so an
event overlapping a later, non-adjacent event produces no overlap report. -/
theorem schedule_find_conflicts_adjacent_scan (events : List RawEvent) :
    (schedule_find_conflicts events).overlaps =
      ((sortedEvents events).zip (sortedEvents events).tail).filterMap overlapOf ∧
    (schedule_find_conflicts events).tight_transitions =
      ((sortedEvents events).zip (sortedEvents events).tail).filterMap tightOf := by
  unfold schedule_find_conflicts
  exact ⟨conflictScan_overlaps_eq _, conflictScan_tights_eq _⟩

/-- C6: every parsed event strictly longer than 4 hours appears in
`long_events` with its duration in tenths of an hour, every `long_events`
entry arises from such an event, and `all_clear` is true exactly when both the
overlaps and the tight-transitions lists are empty — long events never affect
`all_clear`. -/
theorem schedule_find_conflicts_long_events_all_clear (events : List RawEvent) :
    (∀ p ∈ parseConflictEvents events, 4 * 3600 < p.e - p.s →
      (⟨p.title, p.s, p.e, durationDeciHours (p.e - p.s)⟩ : LongReport) ∈
        (schedule_find_conflicts events).long_events) ∧
    (∀ x ∈ (schedule_find_conflicts events).long_events,
      ∃ p, p ∈ parseConflictEvents events ∧ 4 * 3600 < p.e - p.s ∧
        x = ⟨p.title, p.s, p.e, durationDeciHours (p.e - p.s)⟩) ∧
    ((schedule_find_conflicts events).all_clear = true ↔
      (schedule_find_conflicts events).overlaps = [] ∧
      (schedule_find_conflicts events).tight_transitions = []) := by
  have hlongs : (schedule_find_conflicts events).long_events =
      (sortedEvents events).filterMap longOf := by
    unfold schedule_find_conflicts
    exact conflictScan_longs_eq _
  have hmem : ∀ p : PEvent, p ∈ sortedEvents events ↔ p ∈ parseConflictEvents events := by
    intro p; unfold sortedEvents; exact List.mem_insertionSort peLE
  refine ⟨?_, ?_, ?_⟩
  · intro p hp hlong
    rw [hlongs, List.mem_filterMap]
    refine ⟨p, (hmem p).mpr hp, ?_⟩
    unfold longOf
    rw [if_pos hlong]
  · intro x hx
    rw [hlongs, List.mem_filterMap] at hx
    obtain ⟨p, hp, hfx⟩ := hx
    unfold longOf at hfx
    by_cases hlong : 4 * 3600 < p.e - p.s
    · rw [if_pos hlong] at hfx
      exact ⟨p, (hmem p).mp hp, hlong, (Option.some_inj.mp hfx).symm⟩
    · rw [if_neg hlong] at hfx
      exact absurd hfx (Option.noConfusion)
  · unfold schedule_find_conflicts
    simp [List.isEmpty_iff]

/-- Witness for C6 at a concrete input: a five-hour event (18000 seconds)
appears in `long_events` with duration 5.0 hours (50 tenths), even though it
also overlaps its neighbour. -/
theorem schedule_find_conflicts_long_events_witness :
    (⟨0, 18000, "marathon", "e1"⟩ : PEvent) ∈
      parseConflictEvents [⟨some 0, some 18000, "marathon", "e1"⟩,
        ⟨some 600, some 1200, "call", "e2"⟩] ∧
    (4 * 3600 : Int) < 18000 - 0 ∧
    (⟨"marathon", 0, 18000, durationDeciHours (18000 - 0)⟩ : LongReport) ∈
      (schedule_find_conflicts [⟨some 0, some 18000, "marathon", "e1"⟩,
        ⟨some 600, some 1200, "call", "e2"⟩]).long_events :=
  ⟨by decide, by decide,
   (schedule_find_conflicts_long_events_all_clear
      [⟨some 0, some 18000, "marathon", "e1"⟩, ⟨some 600, some 1200, "call", "e2"⟩]).1
      ⟨0, 18000, "marathon", "e1"⟩ (by decide) (by decide)⟩

/-- An event is well-formed when both its start and its end parse. -/
def wellFormed (ev : RawEvent) : Bool := ev.pstart.isSome && ev.pend.isSome

lemma filterMap_eq_filterMap_filter_wellFormed {α : Type} (f : RawEvent → Option α)
    (h : ∀ ev, (f ev).isSome = wellFormed ev) (l : List RawEvent) :
    l.filterMap f = (l.filter wellFormed).filterMap f := by
  induction l with
  | nil => rfl
  | cons ev rest ih =>
    simp only [List.filterMap_cons, List.filter_cons]
    cases hfe : f ev with
    | none =>
      have hw : wellFormed ev = false := by
        rw [← h ev, hfe]; rfl
      simp [hw, ih]
    | some x =>
      have hw : wellFormed ev = true := by
        rw [← h ev, hfe]; rfl
      simp [hw, hfe, ih, List.filterMap_cons]

lemma parseBusy_filter_wellFormed (events : List RawEvent) :
    parseBusy events = parseBusy (events.filter wellFormed) :=
  filterMap_eq_filterMap_filter_wellFormed _
    (by
      intro ev
      obtain ⟨ps, pe, su, i⟩ := ev
      cases ps <;> cases pe <;> rfl)
    events

lemma parseConflictEvents_filter_wellFormed (events : List RawEvent) :
    parseConflictEvents events = parseConflictEvents (events.filter wellFormed) :=
  filterMap_eq_filterMap_filter_wellFormed _
    (by
      intro ev
      obtain ⟨ps, pe, su, i⟩ := ev
      cases ps <;> cases pe <;> rfl)
    events

/-- C7: a malformed event (start or end fails to parse) is dropped and the
remaining events are processed normally — both the free-slot finder and the
conflict detector return exactly the output computed over the well-formed
events alone. -/
theorem malformed_events_dropped (date d eh lh : Int) (events : List RawEvent) :
    find_free_slots date d eh lh events =
      find_free_slots date d eh lh (events.filter wellFormed) ∧
    schedule_find_conflicts events = schedule_find_conflicts (events.filter wellFormed) := by
  constructor
  · unfold find_free_slots
    rw [parseBusy_filter_wellFormed]
  · unfold schedule_find_conflicts sortedEvents
    rw [parseConflictEvents_filter_wellFormed]

/-- A simplified task dict as produced by `_simplify_task` (notion.py
lines 324-333).  `status` and `due_date` are `none` when the Notion property
is empty; due dates stay ISO strings, compared with Python string comparison
exactly as the source does. -/
structure NotionTask where
  notion_id : String
  url : String
  name : String
  status : Option String
  due_date : Option String
deriving DecidableEq, Repr

/-- The Notion query filter built by `get_tasks` (notion.py lines 282-321):
optional status equality, `Due Date on_or_before`, `Due Date on_or_after`.  A
date filter excludes records with an empty date property.  The provider-side
ascending sort on `Due Date` is not modelled: `db` ranges over every ordering
the provider could return, so every theorem below holds for the sorted one. -/
def matchesTaskFilters (status due_before due_after : Option String)
    (t : NotionTask) : Bool :=
  (match status with
   | none => true
   | some st => t.status == some st) &&
  (match due_before with
   | none => true
   | some d => match t.due_date with
     | none => false
     | some dd => decide (dd ≤ d)) &&
  (match due_after with
   | none => true
   | some d => match t.due_date with
     | none => false
     | some dd => decide (d ≤ dd))

/-- notion.py lines 282-321, `get_tasks`. -/
def get_tasks (db : List NotionTask) (status due_before due_after : Option String) :
    List NotionTask :=
  db.filter (matchesTaskFilters status due_before due_after)

/-- notion.py line 401: `t["status"] not in ("Done", "Archived", "Overdue")`. -/
def notClosedStatus (t : NotionTask) : Bool :=
  !(t.status == some "Done") && !(t.status == some "Archived") && !(t.status == some "Overdue")

/-- notion.py line 401: `t["due_date"] and t["due_date"] < today` — Python
truthiness makes both `None` and the empty string falsy. -/
def pastDue (today : String) (t : NotionTask) : Bool :=
  match t.due_date with
  | none => false
  | some d => !(d == "") && decide (d < today)

/-- notion.py line 395: the explicitly-marked overdue tasks. -/
def overdue_by_status (db : List NotionTask) : List NotionTask :=
  get_tasks db (some "Overdue") none none

/-- notion.py lines 398-402: tasks with a past due date that are not Done,
Archived, or Overdue. -/
def overdue_by_date (db : List NotionTask) (today : String) : List NotionTask :=
  (get_tasks db none (some today) none).filter (fun t => notClosedStatus t && pastDue today t)

/-- notion.py lines 404-410: the dedup-by-id loop with its `seen` set. -/
def dedupById : List NotionTask → List String → List NotionTask
  | [], _ => []
  | t :: ts, seen =>
      if t.notion_id ∈ seen then dedupById ts seen
      else t :: dedupById ts (t.notion_id :: seen)

/-- notion.py lines 390-412, `get_overdue_tasks`. -/
def get_overdue_tasks (db : List NotionTask) (today : String) : List NotionTask :=
  dedupById (overdue_by_status db ++ overdue_by_date db today) []

/-- Detection path (a): the status field equals the literal "Overdue". -/
def overdueByStatus (t : NotionTask) : Prop := t.status = some "Overdue"

/-- Detection path (b): due strictly before today (nonempty due date) and not
Done/Archived/Overdue. -/
def overdueByDate (today : String) (t : NotionTask) : Prop :=
  t.status ≠ some "Done" ∧ t.status ≠ some "Archived" ∧ t.status ≠ some "Overdue" ∧
  ∃ d, t.due_date = some d ∧ d ≠ "" ∧ d < today

lemma mem_overdue_by_status (db : List NotionTask) (t : NotionTask) :
    t ∈ overdue_by_status db ↔ t ∈ db ∧ overdueByStatus t := by
  unfold overdue_by_status get_tasks matchesTaskFilters overdueByStatus
  rw [List.mem_filter]
  simp

lemma mem_overdue_by_date (db : List NotionTask) (today : String) (t : NotionTask) :
    t ∈ overdue_by_date db today ↔ t ∈ db ∧ overdueByDate today t := by
  unfold overdue_by_date get_tasks matchesTaskFilters overdueByDate notClosedStatus pastDue
  rw [List.mem_filter, List.mem_filter]
  constructor
  · rintro ⟨⟨hdb, hq⟩, hf⟩
    refine ⟨hdb, ?_⟩
    cases hdd : t.due_date with
    | none => rw [hdd] at hq; simp at hq
    | some d =>
      rw [hdd] at hq hf
      simp only [Bool.and_eq_true, Bool.not_eq_true', beq_eq_false_iff_ne, ne_eq,
        decide_eq_true_eq] at hq hf
      exact ⟨hf.1.1.1, hf.1.1.2, hf.1.2, d, rfl, hf.2.1, hf.2.2⟩
  · rintro ⟨hdb, h1, h2, h3, d, hdd, hne, hlt⟩
    refine ⟨⟨hdb, ?_⟩, ?_⟩
    · rw [hdd]
      simp only [Bool.and_eq_true, decide_eq_true_eq]
      exact ⟨⟨trivial, le_of_lt hlt⟩, trivial⟩
    · rw [hdd]
      simp only [Bool.and_eq_true, Bool.not_eq_true', beq_eq_false_iff_ne, ne_eq,
        decide_eq_true_eq]
      exact ⟨⟨⟨h1, h2⟩, h3⟩, hne, hlt⟩

lemma dedupById_congr_seen :
    ∀ (l : List NotionTask) (s1 s2 : List String),
      (∀ x ∈ l, (x.notion_id ∈ s1 ↔ x.notion_id ∈ s2)) →
      dedupById l s1 = dedupById l s2 := by
  intro l
  induction l with
  | nil => intro s1 s2 _; rfl
  | cons t ts ih =>
    intro s1 s2 hagree
    have ht := hagree t (List.mem_cons_self _ _)
    by_cases h : t.notion_id ∈ s1
    · rw [dedupById, dedupById, if_pos h, if_pos (ht.mp h)]
      exact ih s1 s2 fun x hx => hagree x (List.mem_cons_of_mem _ hx)
    · rw [dedupById, dedupById, if_neg h, if_neg (fun h2 => h (ht.mpr h2))]
      congr 1
      refine ih _ _ fun x hx => ?_
      simp only [List.mem_cons]
      rw [hagree x (List.mem_cons_of_mem _ hx)]

lemma dedupById_append_left :
    ∀ (xs ys : List NotionTask) (seen : List String),
      (xs.map NotionTask.notion_id).Nodup →
      (∀ x ∈ xs, x.notion_id ∉ seen) →
      dedupById (xs ++ ys) seen = xs ++ dedupById ys (xs.map NotionTask.notion_id ++ seen) := by
  intro xs
  induction xs with
  | nil => intro ys seen _ _; rfl
  | cons x xs ih =>
    intro ys seen hnd hsn
    have hx : x.notion_id ∉ seen := hsn x (List.mem_cons_self _ _)
    rw [List.cons_append, dedupById, if_neg hx]
    rw [List.map_cons, List.nodup_cons] at hnd
    have hstep := ih ys (x.notion_id :: seen) hnd.2 (fun y hy => by
      simp only [List.mem_cons]
      rintro (h | h)
      · exact hnd.1 (h ▸ List.mem_map_of_mem NotionTask.notion_id hy)
      · exact hsn y (List.mem_cons_of_mem _ hy) h)
    rw [hstep, List.cons_append]
    congr 2
    refine dedupById_congr_seen ys _ _ fun z _ => ?_
    simp only [List.mem_append, List.mem_cons, List.map_cons]
    tauto

lemma dedupById_eq_filter :
    ∀ (ys : List NotionTask) (seen : List String),
      (ys.map NotionTask.notion_id).Nodup →
      dedupById ys seen = ys.filter (fun y => decide (y.notion_id ∉ seen)) := by
  intro ys
  induction ys with
  | nil => intro seen _; rfl
  | cons y ys ih =>
    intro seen hnd
    rw [List.map_cons, List.nodup_cons] at hnd
    by_cases h : y.notion_id ∈ seen
    · rw [dedupById, if_pos h, List.filter_cons]
      have hd : decide (y.notion_id ∉ seen) = false := by simp [h]
      rw [hd]
      simp only [Bool.false_eq_true, if_false]
      exact ih seen hnd.2
    · rw [dedupById, if_neg h, List.filter_cons]
      have hd : decide (y.notion_id ∉ seen) = true := by simp [h]
      rw [hd]
      simp only [if_true]
      congr 1
      rw [dedupById_congr_seen ys (y.notion_id :: seen) seen (fun z hz => by
        simp only [List.mem_cons]
        have : z.notion_id ≠ y.notion_id := fun he =>
          hnd.1 (he ▸ List.mem_map_of_mem NotionTask.notion_id hz)
        tauto)]
      exact ih seen hnd.2

lemma dedupById_id_not_in_seen :
    ∀ (l : List NotionTask) (seen : List String) (x : NotionTask),
      x ∈ dedupById l seen → x.notion_id ∉ seen := by
  intro l
  induction l with
  | nil => intro seen x hx; simp [dedupById] at hx
  | cons t ts ih =>
    intro seen x hx
    by_cases h : t.notion_id ∈ seen
    · rw [dedupById, if_pos h] at hx
      exact ih seen x hx
    · rw [dedupById, if_neg h] at hx
      rcases List.mem_cons.mp hx with hx | hx
      · subst hx; exact h
      · intro hs
        exact ih _ x hx (List.mem_cons_of_mem _ hs)

lemma dedupById_ids_nodup :
    ∀ (l : List NotionTask) (seen : List String),
      ((dedupById l seen).map NotionTask.notion_id).Nodup := by
  intro l
  induction l with
  | nil => intro seen; simp [dedupById]
  | cons t ts ih =>
    intro seen
    by_cases h : t.notion_id ∈ seen
    · rw [dedupById, if_pos h]
      exact ih seen
    · rw [dedupById, if_neg h, List.map_cons, List.nodup_cons]
      refine ⟨?_, ih _⟩
      intro hmem
      obtain ⟨x, hx, hid⟩ := List.mem_map.mp hmem
      exact dedupById_id_not_in_seen ts _ x hx (hid ▸ List.mem_cons_self _ _)

/-- C3: `get_overdue_tasks` returns the union of (a) tasks whose status is
literally "Overdue" and (b) tasks due strictly before today whose status is
none of Done/Archived/Overdue — deduplicated by task id with first-seen order
preserved (all of (a), then the remainder of (b)), so that every qualifying
task appears exactly once. -/
theorem get_overdue_tasks_union_dedup (db : List NotionTask) (today : String)
    (hids : (db.map NotionTask.notion_id).Nodup) :
    get_overdue_tasks db today =
      overdue_by_status db ++ (overdue_by_date db today).filter
        (fun t => decide (t.notion_id ∉ (overdue_by_status db).map NotionTask.notion_id)) ∧
    (∀ t, t ∈ get_overdue_tasks db today ↔
      t ∈ db ∧ (overdueByStatus t ∨ overdueByDate today t)) ∧
    ((get_overdue_tasks db today).map NotionTask.notion_id).Nodup ∧
    (∀ t ∈ db, overdueByStatus t ∨ overdueByDate today t →
      (get_overdue_tasks db today).count t = 1) := by
  have hsubA : (overdue_by_status db).Sublist db := List.filter_sublist db
  have hsubB : (overdue_by_date db today).Sublist db :=
    (List.filter_sublist _).trans (List.filter_sublist db)
  have hndA : ((overdue_by_status db).map NotionTask.notion_id).Nodup :=
    (hsubA.map NotionTask.notion_id).nodup hids
  have hndB : ((overdue_by_date db today).map NotionTask.notion_id).Nodup :=
    (hsubB.map NotionTask.notion_id).nodup hids
  have hinj : ∀ x ∈ db, ∀ y ∈ db, x.notion_id = y.notion_id → x = y :=
    List.inj_on_of_nodup_map hids
  have hstruct : get_overdue_tasks db today =
      overdue_by_status db ++ (overdue_by_date db today).filter
        (fun t => decide (t.notion_id ∉ (overdue_by_status db).map NotionTask.notion_id)) := by
    unfold get_overdue_tasks
    rw [dedupById_append_left _ _ [] hndA (by simp)]
    congr 1
    rw [dedupById_congr_seen _ _ ((overdue_by_status db).map NotionTask.notion_id)
      (by intro x _; simp)]
    exact dedupById_eq_filter _ _ hndB
  have hmem : ∀ t, t ∈ get_overdue_tasks db today ↔
      t ∈ db ∧ (overdueByStatus t ∨ overdueByDate today t) := by
    intro t
    rw [hstruct, List.mem_append, List.mem_filter]
    constructor
    · rintro (h | ⟨h, _⟩)
      · have := (mem_overdue_by_status db t).mp h
        exact ⟨this.1, Or.inl this.2⟩
      · have := (mem_overdue_by_date db today t).mp h
        exact ⟨this.1, Or.inr this.2⟩
    · rintro ⟨hdb, hcond | hcond⟩
      · exact Or.inl ((mem_overdue_by_status db t).mpr ⟨hdb, hcond⟩)
      · by_cases hA : t ∈ overdue_by_status db
        · exact Or.inl hA
        · refine Or.inr ⟨(mem_overdue_by_date db today t).mpr ⟨hdb, hcond⟩, ?_⟩
          rw [decide_eq_true_eq]
          intro hmemA
          obtain ⟨y, hy, hid⟩ := List.mem_map.mp hmemA
          have hydb : y ∈ db := ((mem_overdue_by_status db y).mp hy).1
          have : y = t := hinj y hydb t hdb hid
          exact hA (this ▸ hy)
  have hnodup : ((get_overdue_tasks db today).map NotionTask.notion_id).Nodup := by
    unfold get_overdue_tasks
    exact dedupById_ids_nodup _ _
  refine ⟨hstruct, hmem, hnodup, ?_⟩
  intro t htdb hcond
  exact List.count_eq_one_of_mem (hnodup.of_map NotionTask.notion_id)
    ((hmem t).mpr ⟨htdb, hcond⟩)

/-- Witness for C3 at a concrete database: a task with status "Overdue" and a
future due date appears exactly once; a task "Not started" due yesterday
appears exactly once; a task matched by both paths appears exactly once. -/
theorem get_overdue_tasks_union_dedup_witness :
    (([⟨"t1", "u1", "ship", some "Overdue", some "2026-12-31"⟩,
       ⟨"t2", "u2", "file", some "Not started", some "2026-10-11"⟩,
       ⟨"t3", "u3", "plan", some "Overdue", some "2026-10-01"⟩,
       ⟨"t4", "u4", "done", some "Done", some "2026-10-01"⟩] :
        List NotionTask).map NotionTask.notion_id).Nodup ∧
    (get_overdue_tasks [⟨"t1", "u1", "ship", some "Overdue", some "2026-12-31"⟩,
       ⟨"t2", "u2", "file", some "Not started", some "2026-10-11"⟩,
       ⟨"t3", "u3", "plan", some "Overdue", some "2026-10-01"⟩,
       ⟨"t4", "u4", "done", some "Done", some "2026-10-01"⟩] "2026-10-12").count
      ⟨"t1", "u1", "ship", some "Overdue", some "2026-12-31"⟩ = 1 ∧
    (get_overdue_tasks [⟨"t1", "u1", "ship", some "Overdue", some "2026-12-31"⟩,
       ⟨"t2", "u2", "file", some "Not started", some "2026-10-11"⟩,
       ⟨"t3", "u3", "plan", some "Overdue", some "2026-10-01"⟩,
       ⟨"t4", "u4", "done", some "Done", some "2026-10-01"⟩] "2026-10-12").count
      ⟨"t2", "u2", "file", some "Not started", some "2026-10-11"⟩ = 1 ∧
    (get_overdue_tasks [⟨"t1", "u1", "ship", some "Overdue", some "2026-12-31"⟩,
       ⟨"t2", "u2", "file", some "Not started", some "2026-10-11"⟩,
       ⟨"t3", "u3", "plan", some "Overdue", some "2026-10-01"⟩,
       ⟨"t4", "u4", "done", some "Done", some "2026-10-01"⟩] "2026-10-12").count
      ⟨"t3", "u3", "plan", some "Overdue", some "2026-10-01"⟩ = 1 :=
  ⟨by decide,
   (get_overdue_tasks_union_dedup _ "2026-10-12" (by decide)).2.2.2
     ⟨"t1", "u1", "ship", some "Overdue", some "2026-12-31"⟩ (by decide) (Or.inl rfl),
   (get_overdue_tasks_union_dedup _ "2026-10-12" (by decide)).2.2.2
     ⟨"t2", "u2", "file", some "Not started", some "2026-10-11"⟩ (by decide)
     (Or.inr ⟨by decide, by decide, by decide, "2026-10-11", rfl, by decide,
       String.lt_iff_toList_lt.mpr (by decide)⟩),
   (get_overdue_tasks_union_dedup _ "2026-10-12" (by decide)).2.2.2
     ⟨"t3", "u3", "plan", some "Overdue", some "2026-10-01"⟩ (by decide) (Or.inl rfl)⟩

/-- A Google API `HttpError`: its HTTP status and its Python string rendering
`str(e)`. -/
structure HttpErr where
  status : Int
  display : String
deriving DecidableEq, Repr

/-- A Notion `APIResponseError`: its error code, message, and Python string
rendering `str(e)`. -/
structure NotionErr where
  code : String
  message : String
  display : String
deriving DecidableEq, Repr

/-- gcal.py lines 23-34, `_handle_http_error`: the class-specific translation
of a Google API error into a human-readable message. -/
def handle_http_error (e : HttpErr) : String :=
  if e.status = 404 then "Error: Calendar event not found. Check the event ID."
  else if e.status = 403 then
    "Error: Permission denied. Ensure the Calendar API is enabled and OAuth scopes include calendar write."
  else if e.status = 409 then "Error: Conflict — this event may already exist."
  else if e.status = 429 then "Error: Google Calendar API rate limit hit. Wait a moment and retry."
  else "Error: Google Calendar API error " ++ toString e.status ++ ": " ++ e.display

/-- notion.py lines 29-40, `_handle_notion_error`: the class-specific
translation of a Notion API error into an actionable message. -/
def handle_notion_error (e : NotionErr) : String :=
  if e.code == "object_not_found" then
    "Error: Notion page or database not found. Check that the integration has access."
  else if e.code == "unauthorized" then "Error: Notion token is invalid or expired."
  else if e.code == "validation_error" then "Error: Invalid data sent to Notion — " ++ e.message
  else if e.code == "rate_limited" then "Error: Notion rate limit hit. Wait a moment and retry."
  else "Error: Notion API error (" ++ e.code ++ "): " ++ e.message

/-- calendar.py lines 95-105, the `gcal_get_events` tool body: the provider
call sits in a `try`, and `except Exception as e` returns the generic string
built from `str(e)`.  `render` abstracts the JSON serialization of the
success payload (`_simplify_event` + `json.dumps`), which this development
does not model. -/
def gcal_get_events_tool (render : List RawEvent → String)
    (fetch : Except HttpErr (List RawEvent)) : String :=
  match fetch with
  | Except.ok evs => render evs
  | Except.error e => "Error fetching events: " ++ e.display

/-- tasks.py lines 85-91, the `notion_get_overdue_tasks` tool body: same
generic `except Exception` pattern. -/
def notion_get_overdue_tasks_tool (render : List NotionTask → String)
    (fetch : Except NotionErr (List NotionTask)) : String :=
  match fetch with
  | Except.ok ts => render ts
  | Except.error e => "Error fetching overdue tasks: " ++ e.display

/-- C8 counterexample: on a not-found failure (HTTP 404) the tool boundary
returns the generic `"Error fetching events: <str(e)>"` string, not the
class-specific translation `_handle_http_error` would produce — the
translators in gcal.py/notion.py are never invoked by any tool. -/
theorem http_error_translation_unused_at_boundary :
    gcal_get_events_tool (fun _ => "[]") (Except.error ⟨404, "HttpError 404"⟩) =
      "Error fetching events: HttpError 404" ∧
    handle_http_error ⟨404, "HttpError 404"⟩ =
      "Error: Calendar event not found. Check the event ID." ∧
    gcal_get_events_tool (fun _ => "[]") (Except.error ⟨404, "HttpError 404"⟩) ≠
      handle_http_error ⟨404, "HttpError 404"⟩ := by
  refine ⟨rfl, by decide, ?_⟩
  decide

/-- C8 amended: every provider-call failure is caught at the tool boundary and
returned as a human-readable error string (the tool always returns a result
rather than propagating the exception), but the string is the generic
`"Error <action>: <exception>"` rendering for every failure class; the
class-specific translators `_handle_http_error` and `_handle_notion_error`
exist as pure functions yet are not applied at the tool boundary. -/
theorem tool_boundary_returns_generic_error_string (render : List RawEvent → String)
    (render2 : List NotionTask → String) (e : HttpErr) (ne : NotionErr) :
    gcal_get_events_tool render (Except.error e) = "Error fetching events: " ++ e.display ∧
    notion_get_overdue_tasks_tool render2 (Except.error ne) =
      "Error fetching overdue tasks: " ++ ne.display :=
  ⟨rfl, rfl⟩

/-- A Google Calendar event as built by `create_event` (gcal.py lines 93-128):
`event_body` with summary, start, end and (optional, always present for task
blocks) description.  `stop` embeds the `end` key. -/
structure GCalEvent where
  summary : String
  start : String
  stop : String
  description : String
deriving DecidableEq, Repr

/-- The combined state of the two external providers. -/
structure ProviderState where
  gcal_events : List GCalEvent
  notion_tasks : List NotionTask
deriving DecidableEq, Repr

/-- gcal.py lines 93-128, `create_event`: inserts exactly one event into the
calendar; no other state is touched. -/
def create_event (st : ProviderState) (ev : GCalEvent) : ProviderState :=
  { st with gcal_events := st.gcal_events ++ [ev] }

/-- The input model `ScheduleTaskBlockInput` (schedule.py lines 137-157).
`stop` embeds the `end` field. -/
structure TaskBlockParams where
  task_notion_id : String
  task_name : String
  task_url : String
  start : String
  stop : String
deriving DecidableEq, Repr

/-- The calendar event built by `schedule_task_block` (schedule.py
lines 188-196): title `"🔨 " + task_name`, description
`"Work block for Notion task:\n" + task_url`. -/
def taskBlockEvent (p : TaskBlockParams) : GCalEvent :=
  ⟨"🔨 " ++ p.task_name, p.start, p.stop, "Work block for Notion task:\n" ++ p.task_url⟩

/-- schedule.py lines 163-206, `schedule_task_block`: one `create_event` call
inside a `try`; `createOk` models whether the provider call succeeds (the
`except` branch returns an error string and leaves all provider state
untouched).  No Notion client call appears anywhere in the body. -/
def schedule_task_block (p : TaskBlockParams) (createOk : Bool) (st : ProviderState) :
    ProviderState × String :=
  if createOk then
    (create_event st (taskBlockEvent p), "Work block created on Google Calendar.")
  else
    (st, "Error scheduling task block")

/-- C9: `schedule_task_block` never mutates the Structured-Record Provider
state; on a successful provider call it creates exactly one calendar event
(appended to the calendar, nothing else changed), whose title carries the task
name and whose description embeds the task URL. -/
theorem schedule_task_block_frame (p : TaskBlockParams) (createOk : Bool)
    (st : ProviderState) :
    (schedule_task_block p createOk st).1.notion_tasks = st.notion_tasks ∧
    (schedule_task_block p createOk st).1.gcal_events =
      (if createOk then st.gcal_events ++ [taskBlockEvent p] else st.gcal_events) ∧
    (taskBlockEvent p).summary = "🔨 " ++ p.task_name ∧
    (taskBlockEvent p).description = "Work block for Notion task:\n" ++ p.task_url := by
  unfold schedule_task_block create_event
  cases createOk <;> exact ⟨rfl, rfl, rfl, rfl⟩

/-- The raw input of the `gcal_find_free_slots` tool before validation
(calendar.py lines 254-267, `FindFreeSlotsInput`).  `none` models a missing
required field; `date` is abstracted to the midnight instant its ISO string
denotes; the hour fields carry pydantic's defaults 8 and 20 when omitted. -/
structure FindFreeSlotsRawInput where
  date : Option Int
  duration_minutes : Option Int
  earliest_hour : Int
  latest_hour : Int
deriving DecidableEq, Repr

/-- The pydantic field constraints of `FindFreeSlotsInput`: `date` required,
`duration_minutes` required with `ge=15, le=480`, `earliest_hour` in `0..23`,
`latest_hour` in `1..24`. -/
def validFindFreeSlotsInput (r : FindFreeSlotsRawInput) : Bool :=
  r.date.isSome &&
  (match r.duration_minutes with
   | none => false
   | some d => decide (15 ≤ d) && decide (d ≤ 480)) &&
  (decide (0 ≤ r.earliest_hour) && decide (r.earliest_hour ≤ 23)) &&
  (decide (1 ≤ r.latest_hour) && decide (r.latest_hour ≤ 24))

/-- calendar.py lines 269-302, the `gcal_find_free_slots` tool: pydantic
validates the input before the tool body runs; only a valid input reaches the
body, which then performs the provider call inside `find_free_slots`.  The
first component records whether a provider call was made; an invalid input is
rejected with no call. -/
def gcal_find_free_slots_tool (r : FindFreeSlotsRawInput) (events : List RawEvent) :
    Bool × Option (List FreeSlot) :=
  match r.date, r.duration_minutes with
  | some date, some d =>
      if validFindFreeSlotsInput r then
        (true, some (find_free_slots date d r.earliest_hour r.latest_hour events))
      else (false, none)
  | _, _ => (false, none)

/-- C10 counterexample: a requested duration of 1 minute satisfies
`duration_minutes ≥ 1` yet is rejected with no provider call — the actual
validity precondition on the duration is `15 ≤ duration_minutes ≤ 480`
(pydantic `ge=15, le=480`), not `duration_minutes ≥ 1`. -/
theorem find_free_slots_tool_rejects_duration_one :
    (1 : Int) ≥ 1 ∧
    validFindFreeSlotsInput ⟨some 0, some 1, 8, 20⟩ = false ∧
    gcal_find_free_slots_tool ⟨some 0, some 1, 8, 20⟩ [] = (false, none) := by
  refine ⟨le_refl 1, by decide, by decide⟩

/-- C10 amended: the tool's validity precondition on `duration_minutes` is
exactly `15 ≤ duration_minutes ≤ 480` (with the required fields present and
the hour fields in `0..23` / `1..24`), and a provider call is made exactly
when validation passes — every validation failure is rejected before any
provider call. -/
theorem find_free_slots_tool_validation (r : FindFreeSlotsRawInput)
    (events : List RawEvent) :
    ((gcal_find_free_slots_tool r events).1 = true ↔ validFindFreeSlotsInput r = true) ∧
    (validFindFreeSlotsInput r = true ↔
      ((∃ x, r.date = some x) ∧
        (∃ d, r.duration_minutes = some d ∧ 15 ≤ d ∧ d ≤ 480) ∧
        (0 ≤ r.earliest_hour ∧ r.earliest_hour ≤ 23) ∧
        (1 ≤ r.latest_hour ∧ r.latest_hour ≤ 24))) := by
  obtain ⟨dt, dur, eh, lh⟩ := r
  cases dt <;> cases dur <;>
    simp [gcal_find_free_slots_tool, validFindFreeSlotsInput, and_assoc]
  split_ifs with h <;> simp_all
